import Mathlib

/-!
Verification of the FFT-based translation-initialization routine
(`fft_based_translation_initialization` in `SimpleITK/utilities/fft.py`).

The routine is glue around external imaging-toolkit primitives (resampling,
recursive Gaussian smoothing, FFT normalized correlation, regional maxima,
connected components, per-label statistics).  The embedding keeps those
external primitives abstract, as fields of `Sitk.PipelineEnv`, and translates
the repository's own logic statement by statement: the grid-reconciliation
branch, the smoothing/casting order, the choice between plain and masked
correlation, the stable sort of labels by mean, the bounding-box midpoint
arithmetic, the center-minus-peak translation, and the composition with an
optional initial transform.

Python object mutation is modelled twice: a pure value-level function
`Sitk.fft_based_translation_initialization` gives the returned transform's
value, and a store-passing variant `Sitk.fft_based_translation_initialization_on_store`
tracks object identity (every toolkit call allocates a fresh object; the only
in-place mutation in the source, `tx_out.SetTranslation`, writes to the fresh
copy), which is what the frame properties are stated against.
-/

namespace Sitk

/-- Pixel types of the external toolkit that this routine mentions.
`sitkFloat32` is the 32-bit floating point pixel type the code casts to. -/
inductive PixelType where
  | sitkFloat32
  | sitkFloat64
  | sitkUInt8
  | sitkInt8
deriving DecidableEq

/-- Exceptions that the translated code can raise.
`indexError` models Python's `IndexError` from `labels[-1]` on an empty list;
`dimensionMismatch` models the toolkit exception raised when an argument
vector is shorter than the transform's dimension (the toolkit's
`sitkSTLVectorToITK` conversion throws when `in.size() < Dimension`). -/
inductive SitkError where
  | indexError
  | dimensionMismatch
deriving DecidableEq

/-- An N-dimensional sampled scalar image of the external toolkit.
`direction` is the flattened row-major orientation matrix exactly as the
toolkit's `GetDirection()` returns it.  Pixel values are idealized as exact
rationals indexed by integer index vectors. -/
structure Image where
  size : List ℕ
  spacing : List ℚ
  origin : List ℚ
  direction : List ℚ
  pixel : List ℤ → ℚ
  pixelType : PixelType

instance : Inhabited Image :=
  ⟨⟨[], [], [], [], fun _ => 0, PixelType.sitkFloat64⟩⟩

/-- A spatial transform of the external toolkit, reduced to what the routine
uses: its dimension, its mutable translation component, and its
vector-transform rule (the action of its linear part on a vector at a point,
`TransformVector(vector, point)`), kept abstract as a function. -/
structure Transform where
  dim : ℕ
  translation : List ℚ
  vectorRule : List ℚ → List ℚ → List ℚ

/-- The toolkit's identity transform, the default transform of a freshly
constructed `ResampleImageFilter`.  Its dimension adapts at execution time;
the value only serves as a tag for the abstract resampling primitive. -/
def Transform.identity : Transform :=
  ⟨0, [], fun v _ => v⟩

instance : Inhabited Transform := ⟨Transform.identity⟩

/-- `sitk.TranslationTransform(dim, offset)`: a fresh translation transform;
its vector rule is the identity on vectors. -/
def Transform.translationTransform (dim : ℕ) (offset : List ℚ) : Transform :=
  ⟨dim, offset, fun v _ => v⟩

/-- `Transform.TransformVector(vector, point)` of the toolkit: converts both
arguments to fixed-dimension types and throws when either has fewer than
`dim` entries (extra entries are ignored), then applies the vector rule. -/
def Transform.transformVector (t : Transform) (v point : List ℚ) :
    Except SitkError (List ℚ) :=
  if t.dim ≤ v.length ∧ t.dim ≤ point.length then Except.ok (t.vectorRule v point)
  else Except.error SitkError.dimensionMismatch

/-- `SetTranslation` on a transform object: replaces the translation
component.  (In the store-passing model this is the one in-place write.) -/
def Transform.setTranslation (t : Transform) (tr : List ℚ) : Transform :=
  { t with translation := tr }

/-- Per-label statistics produced by the toolkit's
`LabelStatisticsImageFilter` after `Execute(intensity, labelImage)`:
the list of labels (`GetLabels()`, in the filter's enumeration order),
the mean intensity per label (`GetMean`), and the bounding box per label
(`GetBoundingBox`, flattened as `[min0, max0, min1, max1, ...]`). -/
structure LabelStats where
  labels : List ℕ
  mean : ℕ → ℚ
  boundingBox : ℕ → List ℤ

/-- The external toolkit primitives the routine calls, kept abstract.
`resample` receives the reference image installed by `SetReferenceImage`
and the transform installed by `SetTransform` (the filter's default identity
transform when none was installed). -/
structure PipelineEnv where
  resample : Option Image → Transform → Image → Image
  smoothingRecursiveGaussian : Image → ℚ → Image
  fftNormalizedCorrelation : Image → Image → ℚ → Image
  maskedFFTNormalizedCorrelation : Image → Image → Image → Image → ℚ → Image
  regionalMaxima : Image → Bool → Image
  connectedComponent : Image → Image
  labelStatistics : Image → Image → LabelStats

/-- `sitk.Cast(img, pixelType)`: a new image with the requested pixel type
(value rounding of the cast is not relevant to any property proved here). -/
def sitkCast (img : Image) (t : PixelType) : Image :=
  { img with pixelType := t }

/-- The pixelwise comparison `img != value` of the toolkit: a binary image
holding 1 where the pixel differs from `value` and 0 where it equals it. -/
def imageNotEqual (img : Image) (v : ℚ) : Image :=
  { img with pixel := fun i => if img.pixel i = v then 0 else 1,
             pixelType := PixelType.sitkUInt8 }

/-- `TransformContinuousIndexToPhysicalPoint` of an image: the toolkit's
grid mapping `point = origin + direction * (spacing .* index)` with the
flattened row-major direction matrix. -/
def Image.transformContinuousIndexToPhysicalPoint (img : Image) (idx : List ℚ) :
    List ℚ :=
  let d := img.size.length
  (List.range d).map fun r =>
    img.origin.getD r 0 +
      ((List.range d).map fun c =>
        img.direction.getD (r * d + c) 0 * (img.spacing.getD c 0 * idx.getD c 0)).sum

/-- The state of a `sitk.ResampleImageFilter()` object as the routine uses
it: an optional reference image and an optional transform; `none` in
`transform` stands for the filter's default identity transform. -/
structure ResampleImageFilter where
  referenceImage : Option Image := none
  transform : Option Transform := none

/-- `resampler.SetReferenceImage(img)`. -/
def ResampleImageFilter.setReferenceImage (r : ResampleImageFilter) (img : Image) :
    ResampleImageFilter :=
  { r with referenceImage := some img }

/-- `resampler.SetTransform(t)`. -/
def ResampleImageFilter.setTransform (r : ResampleImageFilter) (t : Transform) :
    ResampleImageFilter :=
  { r with transform := some t }

/-- `resampler.Execute(input)`: delegates to the abstract primitive with the
installed reference image and transform (identity when none installed). -/
def ResampleImageFilter.execute (r : ResampleImageFilter) (env : PipelineEnv)
    (input : Image) : Image :=
  env.resample r.referenceImage (r.transform.getD Transform.identity) input

/-- The condition of the grid-reconciliation branch, lines 53-58 of
`fft.py`: an initial transform was supplied, or the moving image's spacing,
direction or origin differs from the fixed image's. -/
def needsResample (fixed moving : Image) (it : Option Transform) : Prop :=
  it.isSome = true ∨ moving.spacing ≠ fixed.spacing ∨
    moving.direction ≠ fixed.direction ∨ moving.origin ≠ fixed.origin

instance (fixed moving : Image) (it : Option Transform) :
    Decidable (needsResample fixed moving it) := by
  unfold needsResample; infer_instance

/-- Lines 59-63 of `fft.py`: construct a resampler, install the fixed image
as reference, install the initial transform when one was supplied, and
execute on the moving image. -/
def resampleOntoFixed (env : PipelineEnv) (fixed moving : Image)
    (it : Option Transform) : Image :=
  let resampler : ResampleImageFilter := {}
  let resampler := resampler.setReferenceImage fixed
  let resampler :=
    match it with
    | some t => resampler.setTransform t
    | none => resampler
  resampler.execute env moving

/-- Lines 53-63 of `fft.py`: the grid-reconciliation stage.  The moving
image is replaced by its resampled version exactly when `needsResample`
holds; otherwise it is used as-is. -/
def stageReconcile (env : PipelineEnv) (fixed moving : Image)
    (it : Option Transform) : Image :=
  if needsResample fixed moving it then resampleOntoFixed env fixed moving it
  else moving

/-- Lines 68-69 of `fft.py` (shape shared by both statements):
`sitk.Cast(sitk.SmoothingRecursiveGaussian(img, sigma), pixel_type)` with
`pixel_type = sitk.sitkFloat32`. -/
def stageSmoothCast (env : PipelineEnv) (img : Image) (sigma : ℚ) : Image :=
  sitkCast (env.smoothingRecursiveGaussian img sigma) PixelType.sitkFloat32

/-- Lines 71-84 of `fft.py`: plain FFT normalized correlation when no
masked pixel value is given, otherwise masked FFT normalized correlation
with the two masks computed as `image != masked_pixel_value` (note: from
the images `fixed`/`moving` as already rebound to their smoothed, cast
versions) and cast to the float pixel type. -/
def stageCorrelation (env : PipelineEnv) (fixed moving : Image) (frac : ℚ)
    (masked_pixel_value : Option ℚ) : Image :=
  match masked_pixel_value with
  | none => env.fftNormalizedCorrelation fixed moving frac
  | some v =>
      env.maskedFFTNormalizedCorrelation fixed moving
        (sitkCast (imageNotEqual fixed v) PixelType.sitkFloat32)
        (sitkCast (imageNotEqual moving v) PixelType.sitkFloat32)
        frac

/-- Lines 52-86 of `fft.py` up to and including the smoothing of the
correlation surface: grid reconciliation, `sigma = fixed.GetSpacing()[0]`,
smoothing and casting of both images, correlation, and smoothing of the
correlation surface with the same sigma. -/
def pipelineXcorr (env : PipelineEnv) (fixed moving : Image) (frac : ℚ)
    (initial_transform : Option Transform) (masked_pixel_value : Option ℚ) :
    Image :=
  let moving := stageReconcile env fixed moving initial_transform
  let sigma := fixed.spacing.headI
  let fixed := stageSmoothCast env fixed sigma
  let moving := stageSmoothCast env moving sigma
  let xcorr := stageCorrelation env fixed moving frac masked_pixel_value
  env.smoothingRecursiveGaussian xcorr sigma

/-- Lines 88-90 of `fft.py`: connected components of the fully connected
regional maxima of the correlation surface, and label statistics of the
surface over that label image. -/
def pipelineStats (env : PipelineEnv) (xcorr : Image) : LabelStats :=
  env.labelStatistics xcorr (env.connectedComponent (env.regionalMaxima xcorr true))

/-- Line 91 of `fft.py`:
`labels = sorted(stats.GetLabels(), key=lambda l: stats.GetMean(l))`.
Python's `sorted` is a stable ascending sort; `List.insertionSort` with the
non-strict by-key relation is stable in the same sense (equal keys keep
their original relative order), so the two agree on every input. -/
def sortedLabels (stats : LabelStats) : List ℕ :=
  List.insertionSort (fun a b => stats.mean a ≤ stats.mean b) stats.labels

/-- The label the code selects: `labels[-1]`, i.e. the last element of the
stably sorted label list; `none` when the label list is empty. -/
def selectedLabel (stats : LabelStats) : Option ℕ :=
  (sortedLabels stats).getLast?

/-- Elements of a Python slice `l[0::2]`: every second element starting at
index 0. -/
def everySecond {α : Type} : List α → List α
  | [] => []
  | [a] => [a]
  | a :: _ :: rest => a :: everySecond rest

/-- Lines 96-100 of `fft.py`: the peak continuous index computed from the
flattened bounding box, pairing `peak_bb[0::2]` with `peak_bb[1::2]` and
taking `(min_idx + max_idx) / 2.0 + 0.5` per axis. -/
def peakIndexOfBB (bb : List ℤ) : List ℚ :=
  (List.zip (everySecond bb) (everySecond bb.tail)).map
    fun p => ((p.1 : ℚ) + (p.2 : ℚ)) / 2 + 1 / 2

/-- Lines 88-107 of `fft.py`: peak extraction.  Selects `labels[-1]`
(raising `IndexError` when the label list is empty, since Python indexes an
empty list), computes the peak continuous index from its bounding box,
converts peak and center (`size/2` per axis) to physical points, and
returns `center_pt - peak_pt` per axis. -/
def stagePeak (env : PipelineEnv) (xcorr : Image) : Except SitkError (List ℚ) :=
  let stats := pipelineStats env xcorr
  match selectedLabel stats with
  | none => Except.error SitkError.indexError
  | some top =>
      let peak_bb := stats.boundingBox top
      let peak_idx := peakIndexOfBB peak_bb
      let peak_pt := xcorr.transformContinuousIndexToPhysicalPoint peak_idx
      let _peak_value := stats.mean top
      let center_pt := xcorr.transformContinuousIndexToPhysicalPoint
        (xcorr.size.map fun p => (p : ℚ) / 2)
      Except.ok ((List.zip center_pt peak_pt).map fun cp => cp.1 - cp.2)

/-- Lines 108-117 of `fft.py`: if an initial transform was supplied,
compute `offset = initial_transform.TransformVector(translation, point=[0, 0])`
(note the hard-coded two-element point), copy the initial transform
(`sitk.Transform(initial_transform).Downcast()`) and set its translation to
the elementwise sum of the initial translation and the offset; otherwise
return a fresh `TranslationTransform` of the correlation surface's
dimension holding the translation. -/
def stageCompose (translation : List ℚ) (initial_transform : Option Transform)
    (dim : ℕ) : Except SitkError Transform :=
  match initial_transform with
  | some t =>
      match t.transformVector translation [0, 0] with
      | Except.error e => Except.error e
      | Except.ok offset =>
          let tx_out := t
          Except.ok (tx_out.setTranslation
            ((List.zip t.translation offset).map fun ab => ab.1 + ab.2))
  | none => Except.ok (Transform.translationTransform dim translation)

/-- The full routine `fft_based_translation_initialization` of `fft.py`,
value level: the value of the transform it returns, or the exception it
raises. -/
def fft_based_translation_initialization (env : PipelineEnv)
    (fixed moving : Image) (required_fraction_of_overlapping_pixels : ℚ)
    (initial_transform : Option Transform) (masked_pixel_value : Option ℚ) :
    Except SitkError Transform :=
  let xcorr := pipelineXcorr env fixed moving
    required_fraction_of_overlapping_pixels initial_transform masked_pixel_value
  match stagePeak env xcorr with
  | Except.error e => Except.error e
  | Except.ok translation =>
      stageCompose translation initial_transform xcorr.size.length

/-- Reference into the object store (a Python object identity). -/
abbrev ImageRef := ℕ

/-- Reference into the transform part of the object store. -/
abbrev TransformRef := ℕ

/-- The heap of live toolkit objects: images and transforms, addressed by
allocation index.  Caller-owned objects occupy the initial prefix. -/
structure Store where
  images : List Image
  transforms : List Transform

/-- Dereference an image object. -/
def Store.getImage (s : Store) (r : ImageRef) : Image :=
  s.images.getD r default

/-- Dereference a transform object. -/
def Store.getTransform (s : Store) (r : TransformRef) : Transform :=
  s.transforms.getD r default

/-- Allocate a fresh image object; returns its reference. -/
def Store.allocImage (s : Store) (img : Image) : ImageRef × Store :=
  (s.images.length, { s with images := s.images ++ [img] })

/-- Allocate a fresh transform object; returns its reference. -/
def Store.allocTransform (s : Store) (t : Transform) : TransformRef × Store :=
  (s.transforms.length, { s with transforms := s.transforms ++ [t] })

/-- Write a transform object in place (`SetTranslation` on an object). -/
def Store.setTransform (s : Store) (r : TransformRef) (t : Transform) : Store :=
  { s with transforms := s.transforms.set r t }

/-- The routine in object-store form.  The caller passes references to its
fixed and moving images and optionally to an initial transform.  Every
toolkit filter output is a freshly allocated object; the source performs no
mutating call on any caller-owned object (the `sitk.Transform` copy
constructor yields an independent copy-on-write object, so the
`SetTranslation` at line 112 writes only to the fresh copy, which is
modelled by allocating the copy and then writing through its reference).
Intermediate objects that the source never names again (the resampler
filter, the regional-maxima, connected-component and statistics objects,
the mask images) do not need tracking for any stated property and are left
as pure values. -/
def fft_based_translation_initialization_on_store (env : PipelineEnv)
    (s : Store) (fixed moving : ImageRef)
    (required_fraction_of_overlapping_pixels : ℚ)
    (initial_transform : Option TransformRef) (masked_pixel_value : Option ℚ) :
    Except SitkError TransformRef × Store :=
  let fixedImg := s.getImage fixed
  let movingImg := s.getImage moving
  let it := initial_transform.map s.getTransform
  let movingImg1 := stageReconcile env fixedImg movingImg it
  let sigma := fixedImg.spacing.headI
  let fixedS := stageSmoothCast env fixedImg sigma
  let movingS := stageSmoothCast env movingImg1 sigma
  let xcorr0 := stageCorrelation env fixedS movingS
    required_fraction_of_overlapping_pixels masked_pixel_value
  let xcorr := pipelineXcorr env fixedImg movingImg
    required_fraction_of_overlapping_pixels it masked_pixel_value
  let s1 := if needsResample fixedImg movingImg it then (s.allocImage movingImg1).2 else s
  let s2 := ((((s1.allocImage fixedS).2.allocImage movingS).2.allocImage
    xcorr0).2.allocImage xcorr).2
  match stagePeak env xcorr with
  | Except.error e => (Except.error e, s2)
  | Except.ok translation =>
      match initial_transform with
      | some tref =>
          let t := s.getTransform tref
          match stageCompose translation (some t) xcorr.size.length with
          | Except.error e => (Except.error e, s2)
          | Except.ok v =>
              let alloc := s2.allocTransform t
              (Except.ok alloc.1, alloc.2.setTransform alloc.1 v)
      | none =>
          let alloc := s2.allocTransform
            (Transform.translationTransform xcorr.size.length translation)
          (Except.ok alloc.1, alloc.2)

/-- The label attaining the maximum key, ties resolved toward the latest
occurrence: the specification value of `sorted(labels, key=mean)[-1]`. -/
def lastMaxBy (f : ℕ → ℚ) : List ℕ → Option ℕ
  | [] => none
  | a :: l =>
      match lastMaxBy f l with
      | none => some a
      | some m => if f a ≤ f m then some m else some a

/-- A 4 by 4 all-zero image on the unit grid (spacing 1, origin 0,
identity direction). -/
def imgZero : Image :=
  ⟨[4, 4], [1, 1], [0, 0], [1, 0, 0, 1], fun _ => 0, PixelType.sitkFloat64⟩

/-- A 4 by 4 by 4 all-zero image on the three-dimensional unit grid. -/
def imgZero3 : Image :=
  ⟨[4, 4, 4], [1, 1, 1], [0, 0, 0], [1, 0, 0, 0, 1, 0, 0, 0, 1],
    fun _ => 0, PixelType.sitkFloat64⟩

/-- A two-dimensional transform with translation `[10, 20]` whose vector
rule is the identity on vectors. -/
def t2d : Transform := ⟨2, [10, 20], fun v _ => v⟩

/-- A three-dimensional transform with zero translation whose vector rule
is the identity on vectors. -/
def t3d : Transform := ⟨3, [0, 0, 0], fun v _ => v⟩

/-- A concrete toolkit instance for evaluating the pipeline on explicit
inputs: every filter is the simplest concrete function, and the statistics
report two labels with means 1 and 2 and bounding box `[0, 1, 0, 1]`. -/
def envTwoLabels : PipelineEnv where
  resample := fun _ _ img => img
  smoothingRecursiveGaussian := fun img _ => img
  fftNormalizedCorrelation := fun f _ _ => f
  maskedFFTNormalizedCorrelation := fun f _ _ _ _ => f
  regionalMaxima := fun img _ => img
  connectedComponent := fun img => img
  labelStatistics := fun _ _ => ⟨[1, 2], fun l => (l : ℚ), fun _ => [0, 1, 0, 1]⟩

/-- A concrete toolkit instance whose statistics report three labels with
means 0, 5, 5: labels 2 and 3 tie for the maximum mean. -/
def envTieLabels : PipelineEnv where
  resample := fun _ _ img => img
  smoothingRecursiveGaussian := fun img _ => img
  fftNormalizedCorrelation := fun f _ _ => f
  maskedFFTNormalizedCorrelation := fun f _ _ _ _ => f
  regionalMaxima := fun img _ => img
  connectedComponent := fun img => img
  labelStatistics := fun _ _ =>
    ⟨[1, 2, 3], fun l => if l = 1 then 0 else 5, fun _ => [0, 1, 0, 1]⟩

/-- A concrete toolkit instance whose statistics report an empty label
list, as on a degenerate correlation surface with no regional maxima. -/
def envEmptyLabels : PipelineEnv where
  resample := fun _ _ img => img
  smoothingRecursiveGaussian := fun img _ => img
  fftNormalizedCorrelation := fun f _ _ => f
  maskedFFTNormalizedCorrelation := fun f _ _ _ _ => f
  regionalMaxima := fun img _ => img
  connectedComponent := fun img => img
  labelStatistics := fun _ _ => ⟨[], fun _ => 0, fun _ => []⟩

/-- A concrete toolkit instance for three-dimensional inputs whose
statistics report one label with a three-dimensional bounding box. -/
def envOneLabel3 : PipelineEnv where
  resample := fun _ _ img => img
  smoothingRecursiveGaussian := fun img _ => img
  fftNormalizedCorrelation := fun f _ _ => f
  maskedFFTNormalizedCorrelation := fun f _ _ _ _ => f
  regionalMaxima := fun img _ => img
  connectedComponent := fun img => img
  labelStatistics := fun _ _ => ⟨[1], fun _ => 1, fun _ => [0, 1, 0, 1, 0, 1]⟩

/-- A concrete toolkit instance that probes the masked-correlation call:
smoothing adds 1 to every pixel (a stand-in for the fact that Gaussian
smoothing changes pixel values near features), and the masked correlation
primitive returns its third argument — the fixed-image mask — so the
produced surface reveals which pixels the primitive was told to include. -/
def envMaskProbe : PipelineEnv where
  resample := fun _ _ img => img
  smoothingRecursiveGaussian := fun img _ =>
    { img with pixel := fun i => img.pixel i + 1 }
  fftNormalizedCorrelation := fun f _ _ => f
  maskedFFTNormalizedCorrelation := fun _ _ fixedMask _ _ => fixedMask
  regionalMaxima := fun img _ => img
  connectedComponent := fun img => img
  labelStatistics := fun _ _ => ⟨[1], fun _ => 0, fun _ => [0, 0, 0, 0]⟩

/-- The correlation stage as the specification and the function's own
docstring describe it: the masks are derived from the caller's INPUT
images (pixels equal to the sentinel in the inputs are excluded), while
the smoothed, cast images are correlated. -/
def stageCorrelationPerSpec (env : PipelineEnv)
    (fixedInput movingInput fixedSmoothed movingSmoothed : Image) (frac : ℚ)
    (v : ℚ) : Image :=
  env.maskedFFTNormalizedCorrelation fixedSmoothed movingSmoothed
    (sitkCast (imageNotEqual fixedInput v) PixelType.sitkFloat32)
    (sitkCast (imageNotEqual movingInput v) PixelType.sitkFloat32)
    frac

end Sitk

namespace Sitk

theorem take_len_append {α : Type} (l t : List α) : (l ++ t).take l.length = l :=
  List.take_left l t

theorem set_len_append {α : Type} (l : List α) (a b : α) :
    (l ++ [a]).set l.length b = l ++ [b] := by
  induction l with
  | nil => rfl
  | cons x l ih => simp [ih]

theorem getD_len_append {α : Type} (l : List α) (a d : α) :
    (l ++ [a]).getD l.length d = a := by
  induction l with
  | nil => rfl
  | cons x l ih => simp [ih]

theorem getD_append_left {α : Type} (l t : List α) (n : ℕ) (d : α)
    (h : n < l.length) : (l ++ t).getD n d = l.getD n d := by
  induction l generalizing n with
  | nil => simp at h
  | cons x l ih =>
    cases n with
    | zero => rfl
    | succ n => simpa using ih n (by simpa using h)

theorem zip_map_getD (f : ℚ → ℚ → ℚ) :
    ∀ (a b : List ℚ) (k : ℕ), k < a.length → k < b.length →
      ((List.zip a b).map fun p => f p.1 p.2).getD k 0 = f (a.getD k 0) (b.getD k 0)
  | [], _, k, ha, _ => by simp at ha
  | _ :: _, [], k, _, hb => by simp at hb
  | x :: a, y :: b, 0, _, _ => rfl
  | x :: a, y :: b, k + 1, ha, hb => by
      simpa using zip_map_getD f a b k (by simpa using ha) (by simpa using hb)

theorem zip_map_length {α β γ : Type} (f : α × β → γ) (a : List α) (b : List β) :
    ((List.zip a b).map f).length = min a.length b.length := by
  simp

theorem everySecond_cons₂ {α : Type} (x y : α) (l : List α) :
    everySecond (x :: y :: l) = x :: everySecond l := rfl

theorem everySecond_cons_tail {α : Type} (y : α) (l : List α) :
    everySecond (y :: l) = y :: everySecond l.tail := by
  cases l <;> rfl

theorem peakIndexOfBB_cons₂ (x y : ℤ) (rest : List ℤ) :
    peakIndexOfBB (x :: y :: rest) =
      (((x : ℚ) + (y : ℚ)) / 2 + 1 / 2) :: peakIndexOfBB rest := by
  unfold peakIndexOfBB
  rw [everySecond_cons₂, List.tail_cons, everySecond_cons_tail]
  rfl

theorem peakIndexOfBB_getD (k : ℕ) (bb : List ℤ) (h : 2 * k + 1 < bb.length) :
    (peakIndexOfBB bb).getD k 0 =
      ((bb.getD (2 * k) 0 : ℚ) + (bb.getD (2 * k + 1) 0 : ℚ)) / 2 + 1 / 2 := by
  induction k generalizing bb with
  | zero =>
      match bb, h with
      | x :: y :: rest, _ => simp [peakIndexOfBB_cons₂]
  | succ k ih =>
      match bb, h with
      | x :: y :: rest, h =>
          have h' : 2 * k + 1 < rest.length := by
            simp only [List.length_cons] at h; omega
          have e1 : 2 * (k + 1) = 2 * k + 1 + 1 := by omega
          rw [peakIndexOfBB_cons₂, e1]
          simp only [List.getD_cons_succ]
          exact ih rest h'

end Sitk

namespace Sitk

theorem getLast?_cons_of_ne_nil {α : Type} (x : α) {l : List α} (h : l ≠ []) :
    (x :: l).getLast? = l.getLast? := by
  cases l with
  | nil => exact absurd rfl h
  | cons y t => rfl

theorem getLast?_orderedInsert (f : ℕ → ℚ) (a : ℕ) :
    ∀ s : List ℕ, List.Sorted (fun x y => f x ≤ f y) s →
      (List.orderedInsert (fun x y => f x ≤ f y) a s).getLast? =
        match s.getLast? with
        | none => some a
        | some m => if f a ≤ f m then some m else some a
  | [], _ => rfl
  | [b], _ => by
      by_cases hab : f a ≤ f b <;>
        simp [List.orderedInsert, hab]
  | b :: c :: s, hs => by
      by_cases hab : f a ≤ f b
      · have hmem := List.getLast_mem (l := c :: s) (by simp)
        have hbm : f b ≤ f ((c :: s).getLast (by simp)) :=
          List.rel_of_sorted_cons hs _ hmem
        have hlast : (c :: s).getLast? = some ((c :: s).getLast (by simp)) :=
          List.getLast?_eq_getLast_of_ne_nil (by simp)
        rw [List.orderedInsert, if_pos hab]
        rw [getLast?_cons_of_ne_nil a (by simp), getLast?_cons_of_ne_nil b (by simp)]
        rw [hlast]
        have : f a ≤ f ((c :: s).getLast (by simp)) := le_trans hab hbm
        simp [this]
      · have hins := getLast?_orderedInsert f a (c :: s) hs.of_cons
        rw [List.orderedInsert, if_neg hab]
        have hne : List.orderedInsert (fun x y => f x ≤ f y) a (c :: s) ≠ [] := by
          intro hnil
          have hlen := congrArg List.length hnil
          rw [List.orderedInsert_length] at hlen
          simp at hlen
        rw [getLast?_cons_of_ne_nil b hne, hins,
          getLast?_cons_of_ne_nil b (l := c :: s) (by simp)]

theorem getLast?_insertionSort_key (f : ℕ → ℚ) (l : List ℕ) :
    (List.insertionSort (fun x y => f x ≤ f y) l).getLast? = lastMaxBy f l := by
  letI : IsTotal ℕ fun x y => f x ≤ f y := ⟨fun a b => le_total (f a) (f b)⟩
  letI : IsTrans ℕ fun x y => f x ≤ f y := ⟨fun _ _ _ hab hbc => le_trans hab hbc⟩
  induction l with
  | nil => rfl
  | cons a l ih =>
      have hs := List.sorted_insertionSort (fun x y => f x ≤ f y) l
      rw [List.insertionSort, getLast?_orderedInsert f a _ hs, ih]
      cases hml : lastMaxBy f l with
      | none => simp only [lastMaxBy, hml]
      | some m => simp only [lastMaxBy, hml]

end Sitk

namespace Sitk

theorem lastMaxBy_cons (f : ℕ → ℚ) (a : ℕ) (l : List ℕ) :
    lastMaxBy f (a :: l) =
      match lastMaxBy f l with
      | none => some a
      | some m => if f a ≤ f m then some m else some a := rfl

theorem lastMaxBy_spec (f : ℕ → ℚ) :
    ∀ l : List ℕ, l ≠ [] →
      ∃ k, k < l.length ∧ lastMaxBy f l = some (l.getD k 0) ∧
        (∀ u, u < l.length → f (l.getD u 0) ≤ f (l.getD k 0)) ∧
        (∀ u, k < u → u < l.length → f (l.getD u 0) < f (l.getD k 0))
  | [], h => absurd rfl h
  | a :: t, _ => by
      cases t with
      | nil =>
          refine ⟨0, by simp, rfl, ?_, ?_⟩
          · intro u hu
            cases u with
            | zero => exact le_refl _
            | succ u => simp at hu
          · intro u hku hu
            simp at hu
            omega
      | cons b t' =>
          obtain ⟨k', hk', hlast, hmax, hafter⟩ := lastMaxBy_spec f (b :: t') (by simp)
          by_cases hle : f a ≤ f ((b :: t').getD k' 0)
          · refine ⟨k' + 1, ?_, ?_, ?_, ?_⟩
            · have := hk'
              simp only [List.length_cons] at this ⊢
              omega
            · rw [lastMaxBy_cons, hlast]
              simp only [if_pos hle, List.getD_cons_succ]
            · intro u hu
              cases u with
              | zero => simpa using hle
              | succ u =>
                  simp only [List.getD_cons_succ]
                  exact hmax u (by simpa using hu)
            · intro u hku hu
              cases u with
              | zero => omega
              | succ u =>
                  simp only [List.getD_cons_succ]
                  exact hafter u (by omega) (by simpa using hu)
          · refine ⟨0, by simp, ?_, ?_, ?_⟩
            · rw [lastMaxBy_cons, hlast]
              simp only [if_neg hle, List.getD_cons_zero]
            · intro u hu
              cases u with
              | zero => exact le_refl _
              | succ u =>
                  simp only [List.getD_cons_succ, List.getD_cons_zero]
                  exact le_of_lt (lt_of_le_of_lt (hmax u (by simpa using hu)) (not_le.mp hle))
            · intro u hku hu
              cases u with
              | zero => omega
              | succ u =>
                  simp only [List.getD_cons_succ, List.getD_cons_zero]
                  exact lt_of_le_of_lt (hmax u (by simpa using hu)) (not_le.mp hle)

/-- The selected label of the peak-extraction stage, characterized
positionally: it is the element at the last position attaining the maximum
mean, by stability of the ascending sort. -/
theorem selectedLabel_spec (stats : LabelStats) (hne : stats.labels ≠ []) :
    ∃ k, k < stats.labels.length ∧
      selectedLabel stats = some (stats.labels.getD k 0) ∧
      (∀ u, u < stats.labels.length →
        stats.mean (stats.labels.getD u 0) ≤ stats.mean (stats.labels.getD k 0)) ∧
      (∀ u, k < u → u < stats.labels.length →
        stats.mean (stats.labels.getD u 0) < stats.mean (stats.labels.getD k 0)) := by
  obtain ⟨k, hk, hlast, hmax, hafter⟩ := lastMaxBy_spec stats.mean stats.labels hne
  exact ⟨k, hk, by
    rw [selectedLabel, sortedLabels, getLast?_insertionSort_key]
    exact hlast, hmax, hafter⟩

end Sitk

namespace Sitk

theorem store_allocImage_images (s : Store) (img : Image) :
    (s.allocImage img).2.images = s.images ++ [img] := rfl

theorem store_allocImage_transforms (s : Store) (img : Image) :
    (s.allocImage img).2.transforms = s.transforms := rfl

theorem store_allocTransform_transforms (s : Store) (t : Transform) :
    (s.allocTransform t).2.transforms = s.transforms ++ [t] := rfl

theorem store_allocTransform_images (s : Store) (t : Transform) :
    (s.allocTransform t).2.images = s.images := rfl

theorem store_allocTransform_fst (s : Store) (t : Transform) :
    (s.allocTransform t).1 = s.transforms.length := rfl

theorem store_setTransform_images (s : Store) (r : TransformRef) (t : Transform) :
    (s.setTransform r t).images = s.images := rfl

theorem store_setTransform_transforms (s : Store) (r : TransformRef) (t : Transform) :
    (s.setTransform r t).transforms = s.transforms.set r t := rfl

theorem run_images_append (env : PipelineEnv) (s : Store) (fixed moving : ImageRef)
    (frac : ℚ) (it : Option TransformRef) (mv : Option ℚ) :
    ∃ ti, (fft_based_translation_initialization_on_store env s fixed moving frac
      it mv).2.images = s.images ++ ti := by
  unfold fft_based_translation_initialization_on_store
  dsimp only
  by_cases hnr : needsResample (s.getImage fixed) (s.getImage moving)
      (it.map s.getTransform)
  · rw [if_pos hnr]
    split
    · simp only [Store.allocImage, Store.allocTransform, Store.setTransform,
        List.append_assoc]
      exact ⟨_, rfl⟩
    · cases it with
      | some tref =>
          dsimp only
          split
          · simp only [Store.allocImage, Store.allocTransform, Store.setTransform,
              List.append_assoc]
            exact ⟨_, rfl⟩
          · simp only [Store.allocImage, Store.allocTransform, Store.setTransform,
              List.append_assoc]
            exact ⟨_, rfl⟩
      | none =>
          dsimp only
          simp only [Store.allocImage, Store.allocTransform, Store.setTransform,
            List.append_assoc]
          exact ⟨_, rfl⟩
  · rw [if_neg hnr]
    split
    · simp only [Store.allocImage, Store.allocTransform, Store.setTransform,
        List.append_assoc]
      exact ⟨_, rfl⟩
    · cases it with
      | some tref =>
          dsimp only
          split
          · simp only [Store.allocImage, Store.allocTransform, Store.setTransform,
              List.append_assoc]
            exact ⟨_, rfl⟩
          · simp only [Store.allocImage, Store.allocTransform, Store.setTransform,
              List.append_assoc]
            exact ⟨_, rfl⟩
      | none =>
          dsimp only
          simp only [Store.allocImage, Store.allocTransform, Store.setTransform,
            List.append_assoc]
          exact ⟨_, rfl⟩

end Sitk

namespace Sitk

theorem run_transforms_take (env : PipelineEnv) (s : Store) (fixed moving : ImageRef)
    (frac : ℚ) (it : Option TransformRef) (mv : Option ℚ) :
    (fft_based_translation_initialization_on_store env s fixed moving frac
      it mv).2.transforms.take s.transforms.length = s.transforms := by
  unfold fft_based_translation_initialization_on_store
  dsimp only
  by_cases hnr : needsResample (s.getImage fixed) (s.getImage moving)
      (it.map s.getTransform)
  · rw [if_pos hnr]
    split
    · simp only [Store.allocImage, Store.allocTransform, Store.setTransform,
        List.take_length]
    · cases it with
      | some tref =>
          dsimp only
          split
          · simp only [Store.allocImage, Store.allocTransform, Store.setTransform,
              List.take_length]
          · simp only [Store.allocImage, Store.allocTransform, Store.setTransform,
              set_len_append, take_len_append]
      | none =>
          dsimp only
          simp only [Store.allocImage, Store.allocTransform, Store.setTransform,
            take_len_append]
  · rw [if_neg hnr]
    split
    · simp only [Store.allocImage, Store.allocTransform, Store.setTransform,
        List.take_length]
    · cases it with
      | some tref =>
          dsimp only
          split
          · simp only [Store.allocImage, Store.allocTransform, Store.setTransform,
              List.take_length]
          · simp only [Store.allocImage, Store.allocTransform, Store.setTransform,
              set_len_append, take_len_append]
      | none =>
          dsimp only
          simp only [Store.allocImage, Store.allocTransform, Store.setTransform,
            take_len_append]

theorem stagePeak_of_labels_empty (env : PipelineEnv) (xcorr : Image)
    (h : (pipelineStats env xcorr).labels = []) :
    stagePeak env xcorr = Except.error SitkError.indexError := by
  unfold stagePeak selectedLabel sortedLabels
  dsimp only
  rw [h]
  rfl

end Sitk

namespace Sitk

/-- C9: the caller's original fixed and moving image objects are never
mutated: the store prefix that existed before the call is unchanged in both
components after the call returns or fails, and in particular both input
image references still dereference to their original images. -/
theorem c9_caller_images_never_mutated (env : PipelineEnv) (s : Store)
    (fixed moving : ImageRef) (frac : ℚ) (it : Option TransformRef)
    (mv : Option ℚ) :
    (fft_based_translation_initialization_on_store env s fixed moving frac
        it mv).2.images.take s.images.length = s.images ∧
    (fft_based_translation_initialization_on_store env s fixed moving frac
        it mv).2.transforms.take s.transforms.length = s.transforms ∧
    (fixed < s.images.length →
      (fft_based_translation_initialization_on_store env s fixed moving frac
        it mv).2.getImage fixed = s.getImage fixed) ∧
    (moving < s.images.length →
      (fft_based_translation_initialization_on_store env s fixed moving frac
        it mv).2.getImage moving = s.getImage moving) := by
  obtain ⟨ti, hti⟩ := run_images_append env s fixed moving frac it mv
  refine ⟨?_, run_transforms_take env s fixed moving frac it mv, ?_, ?_⟩
  · rw [hti]
    exact take_len_append _ _
  · intro h
    unfold Store.getImage
    rw [hti]
    exact getD_append_left _ _ _ _ h
  · intro h
    unfold Store.getImage
    rw [hti]
    exact getD_append_left _ _ _ _ h

/-- C6: the moving image is resampled onto the fixed image's grid exactly
when an initial transform is given or the moving image's spacing, direction
or origin differs from the fixed image's; the resampling applies the
initial transform when given and the toolkit's identity transform
otherwise; when the grids agree and no initial transform is given the
moving image is used as-is. -/
theorem c6_grid_reconciliation_iff (env : PipelineEnv) (fixed moving : Image)
    (it : Option Transform) :
    stageReconcile env fixed moving it =
      if it.isSome = true ∨ moving.spacing ≠ fixed.spacing ∨
          moving.direction ≠ fixed.direction ∨ moving.origin ≠ fixed.origin then
        env.resample (some fixed) (it.getD Transform.identity) moving
      else moving := by
  by_cases h : it.isSome = true ∨ moving.spacing ≠ fixed.spacing ∨
      moving.direction ≠ fixed.direction ∨ moving.origin ≠ fixed.origin
  · rw [stageReconcile, if_pos (show needsResample fixed moving it from h), if_pos h]
    cases it with
    | none => rfl
    | some t => rfl
  · rw [stageReconcile, if_neg (show ¬needsResample fixed moving it from h), if_neg h]

/-- C8: the Gaussian smoothing sigma is the fixed image's spacing along
axis 0 and that single scalar is used for smoothing the fixed image, the
(possibly resampled) moving image and the correlation surface; the fixed
and moving images are cast to the 32-bit float pixel type after their
smoothing and before the correlation. -/
theorem c8_sigma_from_fixed_spacing_and_cast (env : PipelineEnv)
    (fixed moving : Image) (frac : ℚ) (it : Option Transform) (mv : Option ℚ) :
    pipelineXcorr env fixed moving frac it mv =
      env.smoothingRecursiveGaussian
        (stageCorrelation env
          (sitkCast (env.smoothingRecursiveGaussian fixed fixed.spacing.headI)
            PixelType.sitkFloat32)
          (sitkCast
            (env.smoothingRecursiveGaussian (stageReconcile env fixed moving it)
              fixed.spacing.headI)
            PixelType.sitkFloat32)
          frac mv)
        fixed.spacing.headI ∧
    (sitkCast (env.smoothingRecursiveGaussian fixed fixed.spacing.headI)
      PixelType.sitkFloat32).pixelType = PixelType.sitkFloat32 ∧
    (sitkCast
      (env.smoothingRecursiveGaussian (stageReconcile env fixed moving it)
        fixed.spacing.headI)
      PixelType.sitkFloat32).pixelType = PixelType.sitkFloat32 :=
  ⟨rfl, rfl, rfl⟩

/-- C1: on inputs whose correlation surface yields an empty label list
(no regional maxima reported by the statistics filter), the routine fails
with the out-of-range index error from `labels[-1]` — there is no explicit
"no peak found" error anywhere in the code, and no transform is returned. -/
theorem c1_empty_label_list_raises_index_error (env : PipelineEnv) (s : Store)
    (fixed moving : ImageRef) (frac : ℚ) (it : Option TransformRef)
    (mv : Option ℚ)
    (hempty : (pipelineStats env (pipelineXcorr env (s.getImage fixed)
      (s.getImage moving) frac (Option.map s.getTransform it) mv)).labels = []) :
    (fft_based_translation_initialization_on_store env s fixed moving frac
      it mv).1 = Except.error SitkError.indexError := by
  unfold fft_based_translation_initialization_on_store
  dsimp only
  rw [stagePeak_of_labels_empty env _ hempty]

/-- C4: with a 3-dimensional initial transform, the composition step fails
with the dimension-mismatch error, because the code passes the hard-coded
two-element point `[0, 0]` to `TransformVector` regardless of the input
dimension; it does not evaluate the vector rule at a three-dimensional
origin. -/
theorem c4_composition_fails_for_3d_initial_transform (env : PipelineEnv)
    (s : Store) (fixed moving : ImageRef) (frac : ℚ) (tref : TransformRef)
    (mv : Option ℚ) (tr : List ℚ)
    (hdim : (s.getTransform tref).dim = 3)
    (hpeak : stagePeak env (pipelineXcorr env (s.getImage fixed)
      (s.getImage moving) frac (Option.map s.getTransform (some tref)) mv) =
      Except.ok tr) :
    (fft_based_translation_initialization_on_store env s fixed moving frac
      (some tref) mv).1 = Except.error SitkError.dimensionMismatch := by
  unfold fft_based_translation_initialization_on_store
  dsimp only
  rw [hpeak]
  dsimp only
  unfold stageCompose Transform.transformVector
  dsimp only
  rw [hdim]
  simp

end Sitk

namespace Sitk

/-- C2: when an initial transform is supplied and the call returns, the
returned object is a fresh copy agreeing with the initial transform in
every component except translation; its translation is the initial
transform's translation plus (elementwise) the raw translation vector
transformed through the initial transform's vector rule; and the caller's
initial transform object is left unmodified. -/
theorem c2_initial_transform_composed_additively (env : PipelineEnv) (s : Store)
    (fixed moving : ImageRef) (frac : ℚ) (tref : TransformRef) (mv : Option ℚ)
    (r : TransformRef)
    (htref : tref < s.transforms.length)
    (hok : (fft_based_translation_initialization_on_store env s fixed moving frac
      (some tref) mv).1 = Except.ok r) :
    ∃ translation,
      stagePeak env (pipelineXcorr env (s.getImage fixed) (s.getImage moving) frac
        (Option.map s.getTransform (some tref)) mv) = Except.ok translation ∧
      (fft_based_translation_initialization_on_store env s fixed moving frac
        (some tref) mv).2.getTransform r =
        { s.getTransform tref with
          translation :=
            (List.zip (s.getTransform tref).translation
              ((s.getTransform tref).vectorRule translation [0, 0])).map
              fun ab => ab.1 + ab.2 } ∧
      (∀ ax, ax < (s.getTransform tref).translation.length →
        ax < ((s.getTransform tref).vectorRule translation [0, 0]).length →
        ((fft_based_translation_initialization_on_store env s fixed moving frac
          (some tref) mv).2.getTransform r).translation.getD ax 0 =
          (s.getTransform tref).translation.getD ax 0 +
            ((s.getTransform tref).vectorRule translation [0, 0]).getD ax 0) ∧
      r ≠ tref ∧
      (fft_based_translation_initialization_on_store env s fixed moving frac
        (some tref) mv).2.getTransform tref = s.getTransform tref := by
  unfold fft_based_translation_initialization_on_store at hok ⊢
  dsimp only at hok ⊢
  cases hpk : stagePeak env (pipelineXcorr env (s.getImage fixed)
      (s.getImage moving) frac (Option.map s.getTransform (some tref)) mv) with
  | error e =>
      rw [hpk] at hok
      simp at hok
  | ok translation =>
      rw [hpk] at hok
      dsimp only at hok ⊢
      unfold stageCompose Transform.transformVector at hok ⊢
      dsimp only at hok ⊢
      by_cases hcond : (s.getTransform tref).dim ≤ translation.length ∧
          (s.getTransform tref).dim ≤ ([0, 0] : List ℚ).length
      · rw [if_pos hcond] at hok ⊢
        dsimp only at hok ⊢
        simp only [Store.allocImage, Store.allocTransform, Store.setTransform,
          Store.getTransform, apply_ite Store.transforms, ite_self] at hok ⊢
        have hr : s.transforms.length = r := by
          simpa using hok
        subst hr
        simp only [set_len_append, getD_len_append]
        refine ⟨translation, rfl, rfl, ?_, ?_, ?_⟩
        · intro ax h1 h2
          dsimp only [Transform.setTranslation]
          exact zip_map_getD (fun x y => x + y)
            (s.getTransform tref).translation
            ((s.getTransform tref).vectorRule translation [0, 0]) ax h1 h2
        · exact ne_of_gt htref
        · rw [getD_append_left _ _ _ _ htref]
      · rw [if_neg hcond] at hok
        dsimp only at hok
        simp at hok

end Sitk

namespace Sitk

theorem stagePeak_of_selected (env : PipelineEnv) (xcorr : Image) (top : ℕ)
    (h : selectedLabel (pipelineStats env xcorr) = some top) :
    stagePeak env xcorr = Except.ok
      ((List.zip
        (xcorr.transformContinuousIndexToPhysicalPoint
          (xcorr.size.map fun p => (p : ℚ) / 2))
        (xcorr.transformContinuousIndexToPhysicalPoint
          (peakIndexOfBB ((pipelineStats env xcorr).boundingBox top)))).map
        fun cp => cp.1 - cp.2) := by
  unfold stagePeak
  dsimp only
  rw [h]

/-- C5: with a non-empty region list, the selected peak region attains the
maximum mean correlation value; the peak continuous index is, per axis, the
midpoint of the region's bounding-box minimum and maximum indices plus one
half, converted to a physical point on the correlation surface's grid; and
the translation vector is, per axis, the physical point at continuous
index size/2 minus that peak physical point (returned as a fresh
translation transform when no initial transform was given). -/
theorem c5_peak_selection_and_translation (env : PipelineEnv)
    (fixed moving : Image) (frac : ℚ) (it : Option Transform) (mv : Option ℚ)
    (xcorr : Image) (stats : LabelStats)
    (hxc : xcorr = pipelineXcorr env fixed moving frac it mv)
    (hstats : stats = pipelineStats env xcorr)
    (hne : stats.labels ≠ []) :
    ∃ k, k < stats.labels.length ∧
      selectedLabel stats = some (stats.labels.getD k 0) ∧
      (∀ u, u < stats.labels.length →
        stats.mean (stats.labels.getD u 0) ≤ stats.mean (stats.labels.getD k 0)) ∧
      (∀ ax, 2 * ax + 1 < (stats.boundingBox (stats.labels.getD k 0)).length →
        (peakIndexOfBB (stats.boundingBox (stats.labels.getD k 0))).getD ax 0 =
          (((stats.boundingBox (stats.labels.getD k 0)).getD (2 * ax) 0 : ℚ) +
            ((stats.boundingBox (stats.labels.getD k 0)).getD (2 * ax + 1) 0 : ℚ))
            / 2 + 1 / 2) ∧
      ∃ tr, stagePeak env xcorr = Except.ok tr ∧
        tr = (List.zip
          (xcorr.transformContinuousIndexToPhysicalPoint
            (xcorr.size.map fun p => (p : ℚ) / 2))
          (xcorr.transformContinuousIndexToPhysicalPoint
            (peakIndexOfBB (stats.boundingBox (stats.labels.getD k 0))))).map
          (fun cp => cp.1 - cp.2) ∧
        (∀ ax, ax < tr.length →
          tr.getD ax 0 =
            (xcorr.transformContinuousIndexToPhysicalPoint
              (xcorr.size.map fun p => (p : ℚ) / 2)).getD ax 0 -
            (xcorr.transformContinuousIndexToPhysicalPoint
              (peakIndexOfBB (stats.boundingBox
                (stats.labels.getD k 0)))).getD ax 0) ∧
        (it = none →
          fft_based_translation_initialization env fixed moving frac none mv =
            Except.ok (Transform.translationTransform xcorr.size.length tr)) := by
  subst hstats
  obtain ⟨k, hk, hsel, hmax, _⟩ := selectedLabel_spec (pipelineStats env xcorr) hne
  refine ⟨k, hk, hsel, hmax, ?_, ?_⟩
  · intro ax hax
    exact peakIndexOfBB_getD ax _ hax
  · refine ⟨_, stagePeak_of_selected env xcorr _ hsel, rfl, ?_, ?_⟩
    · intro ax hax
      rw [List.length_map, List.length_zip] at hax
      exact zip_map_getD (fun x y => x - y) _ _ ax
        (lt_min_iff.mp hax).1 (lt_min_iff.mp hax).2
    · intro hnone
      subst hnone
      subst hxc
      unfold fft_based_translation_initialization
      dsimp only
      rw [stagePeak_of_selected env _ _ hsel]
      rfl

/-- C10: when two or more labeled regions tie for the maximum mean, the
peak-extraction step raises no error and deterministically selects the
label at the last position attaining the maximum mean — the consequence of
stably sorting the labels ascending by mean and taking the last element. -/
theorem c10_tie_break_selects_last_max (env : PipelineEnv)
    (fixed moving : Image) (frac : ℚ) (it : Option Transform) (mv : Option ℚ)
    (xcorr : Image) (stats : LabelStats)
    (hxc : xcorr = pipelineXcorr env fixed moving frac it mv)
    (hstats : stats = pipelineStats env xcorr)
    (htie : ∃ i j, i < j ∧ j < stats.labels.length ∧
      stats.mean (stats.labels.getD i 0) = stats.mean (stats.labels.getD j 0) ∧
      (∀ u, u < stats.labels.length →
        stats.mean (stats.labels.getD u 0) ≤ stats.mean (stats.labels.getD i 0))) :
    (∃ tr, stagePeak env xcorr = Except.ok tr) ∧
    ∃ k, k < stats.labels.length ∧
      selectedLabel stats = some (stats.labels.getD k 0) ∧
      (∀ u, u < stats.labels.length →
        stats.mean (stats.labels.getD u 0) ≤ stats.mean (stats.labels.getD k 0)) ∧
      (∀ u, k < u → u < stats.labels.length →
        stats.mean (stats.labels.getD u 0) < stats.mean (stats.labels.getD k 0)) := by
  subst hstats
  subst hxc
  have hne : (pipelineStats env (pipelineXcorr env fixed moving frac it mv)).labels ≠ [] := by
    obtain ⟨i, j, hij, hj, _, _⟩ := htie
    intro hnil
    rw [hnil] at hj
    simp at hj
  obtain ⟨k, hk, hsel, hmax, hafter⟩ :=
    selectedLabel_spec (pipelineStats env (pipelineXcorr env fixed moving frac it mv)) hne
  exact ⟨⟨_, stagePeak_of_selected env (pipelineXcorr env fixed moving frac it mv) _ hsel⟩,
    k, hk, hsel, hmax, hafter⟩

/-- C3: the masks passed to the masked correlation primitive are computed
from the smoothed, cast images, not from the caller's input images.  On an
all-zero input with sentinel 0 and a smoothing model that shifts pixel
values, the input pixel at index (0,0) equals the sentinel yet the mask
passed for it holds 1 (included), and the produced correlation surface
differs from the one the specification's input-derived masks would give
(pixel value 2 versus 1). -/
theorem c3_masks_from_smoothed_not_input :
    imgZero.pixel [0, 0] = 0 ∧
    (stageCorrelation envMaskProbe
      (stageSmoothCast envMaskProbe imgZero 1)
      (stageSmoothCast envMaskProbe
        (stageReconcile envMaskProbe imgZero imgZero none) 1)
      0 (some 0)).pixel [0, 0] = 1 ∧
    (pipelineXcorr envMaskProbe imgZero imgZero 0 none (some 0)).pixel [0, 0] = 2 ∧
    (envMaskProbe.smoothingRecursiveGaussian
      (stageCorrelationPerSpec envMaskProbe imgZero imgZero
        (stageSmoothCast envMaskProbe imgZero 1)
        (stageSmoothCast envMaskProbe
          (stageReconcile envMaskProbe imgZero imgZero none) 1)
        0 0) 1).pixel [0, 0] = 1 ∧
    (2 : ℚ) ≠ 1 := by
  refine ⟨rfl, ?_, ?_, ?_, by norm_num⟩
  · simp [stageCorrelation, stageSmoothCast, stageReconcile, needsResample,
      envMaskProbe, imgZero, sitkCast, imageNotEqual]
  · simp [pipelineXcorr, stageCorrelation, stageSmoothCast, stageReconcile,
      needsResample, envMaskProbe, imgZero, sitkCast, imageNotEqual]
    norm_num
  · simp [stageCorrelationPerSpec, stageSmoothCast, stageReconcile,
      needsResample, envMaskProbe, imgZero, sitkCast, imageNotEqual]

end Sitk

namespace Sitk

theorem c1_witness_degenerate_surface :
    (fft_based_translation_initialization_on_store envEmptyLabels
      (Store.mk [imgZero, imgZero] []) 0 1 0 none none).1 =
      Except.error SitkError.indexError :=
  c1_empty_label_list_raises_index_error envEmptyLabels
    (Store.mk [imgZero, imgZero] []) 0 1 0 none none rfl

theorem c2_witness_two_dimensional_composition :
    ((fft_based_translation_initialization_on_store envTwoLabels
      (Store.mk [imgZero, imgZero] [t2d]) 0 1 0 (some 0) none).2.getTransform 1).dim
      = 2 ∧
    (fft_based_translation_initialization_on_store envTwoLabels
      (Store.mk [imgZero, imgZero] [t2d]) 0 1 0 (some 0) none).2.getTransform 0
      = t2d := by
  obtain ⟨tr, hpk, hval, hax, hner, hpres⟩ :=
    c2_initial_transform_composed_additively envTwoLabels
      (Store.mk [imgZero, imgZero] [t2d]) 0 1 0 0 none 1 (by decide) rfl
  constructor
  · rw [hval]
    rfl
  · exact hpres.trans rfl

theorem c4_witness_three_dimensional_failure :
    (fft_based_translation_initialization_on_store envOneLabel3
      (Store.mk [imgZero3, imgZero3] [t3d]) 0 1 0 (some 0) none).1 =
      Except.error SitkError.dimensionMismatch := by
  have hsel : selectedLabel (pipelineStats envOneLabel3 (pipelineXcorr envOneLabel3
      ((Store.mk [imgZero3, imgZero3] [t3d]).getImage 0)
      ((Store.mk [imgZero3, imgZero3] [t3d]).getImage 1) 0
      (Option.map (Store.mk [imgZero3, imgZero3] [t3d]).getTransform (some 0))
      none)) = some 1 := rfl
  exact c4_composition_fails_for_3d_initial_transform envOneLabel3
    (Store.mk [imgZero3, imgZero3] [t3d]) 0 1 0 0 none _ rfl
    (stagePeak_of_selected _ _ _ hsel)

theorem c5_witness_concrete_run :
    ∃ tr, stagePeak envTwoLabels
        (pipelineXcorr envTwoLabels imgZero imgZero 0 none none) = Except.ok tr ∧
      fft_based_translation_initialization envTwoLabels imgZero imgZero 0 none
        none = Except.ok (Transform.translationTransform
          (pipelineXcorr envTwoLabels imgZero imgZero 0 none none).size.length
          tr) := by
  obtain ⟨k, hk, hsel, hmax, hidx, tr, hpk, htr, hax, hrun⟩ :=
    c5_peak_selection_and_translation envTwoLabels imgZero imgZero 0 none none
      (pipelineXcorr envTwoLabels imgZero imgZero 0 none none)
      (pipelineStats envTwoLabels
        (pipelineXcorr envTwoLabels imgZero imgZero 0 none none))
      rfl rfl (by decide)
  exact ⟨tr, hpk, hrun rfl⟩

theorem c9_witness_concrete_store :
    (fft_based_translation_initialization_on_store envTwoLabels
      (Store.mk [imgZero, imgZero] []) 0 1 0 none none).2.getImage 0 = imgZero ∧
    (fft_based_translation_initialization_on_store envTwoLabels
      (Store.mk [imgZero, imgZero] []) 0 1 0 none none).2.getImage 1 = imgZero := by
  obtain ⟨h1, h2, h3, h4⟩ := c9_caller_images_never_mutated envTwoLabels
    (Store.mk [imgZero, imgZero] []) 0 1 0 none none
  exact ⟨(h3 (by decide)).trans rfl, (h4 (by decide)).trans rfl⟩

theorem c10_witness_tie :
    (∃ tr, stagePeak envTieLabels
      (pipelineXcorr envTieLabels imgZero imgZero 0 none none) = Except.ok tr) ∧
    selectedLabel (pipelineStats envTieLabels
      (pipelineXcorr envTieLabels imgZero imgZero 0 none none)) = some 3 := by
  obtain ⟨hok, k, hk, hsel, hmax, hafter⟩ :=
    c10_tie_break_selects_last_max envTieLabels imgZero imgZero 0 none none
      (pipelineXcorr envTieLabels imgZero imgZero 0 none none)
      (pipelineStats envTieLabels
        (pipelineXcorr envTieLabels imgZero imgZero 0 none none))
      rfl rfl ⟨1, 2, by decide, by decide, by decide, by decide⟩
  exact ⟨hok, by rfl⟩

end Sitk
